import Mathlib

/-!
Verification development for the resume-builder bot (`src/resume_bot.py`).

The Python source is shallowly embedded: strings are Lean `String`s,
Python lists are Lean `List`s, the aiogram FSM state/data dict is an
explicit structure, and every pure helper of the source
(`generate_summary`, `enhance_skills`, `get_job_recommendations`, the
field parsers inside the two renderers) is translated into a computable
Lean function.  Python string primitives used by the source
(`str.split`, `str.strip`, `str.lower`, `in` substring test) are modelled
on the character list underlying a `String`.
-/

/-- Characters stripped by Python `str.strip()` (ASCII whitespace). -/
def isPyWs (c : Char) : Bool :=
  c = ' ' || c = '\t' || c = '\n' || c = '\r' || c = '\x0b' || c = '\x0c'

/-- Remove trailing whitespace from a character list (tail half of `str.strip()`). -/
def dropTrailWs (l : List Char) : List Char :=
  (l.reverse.dropWhile isPyWs).reverse

/-- Python `str.strip()` on a character list: drop leading and trailing whitespace. -/
def pyStripL (l : List Char) : List Char :=
  dropTrailWs (l.dropWhile isPyWs)

/-- Python `str.strip()`. -/
def pyStrip (s : String) : String :=
  ⟨pyStripL s.data⟩

/-- Python `str.lower()` (ASCII; the source only lowercases ASCII data). -/
def pyLower (s : String) : String :=
  ⟨s.data.map Char.toLower⟩

/-- ASCII upper-casing, used only by the renderer-content extraction to
case-fold section headings. -/
def pyUpper (s : String) : String :=
  ⟨s.data.map Char.toUpper⟩

/-- Worker for Python `str.split(sep[, maxsplit])` with a one-character
separator: `acc` is the current segment (reversed), `budget` the number
of splits still allowed (`none` = unlimited). -/
def pySplitCharAux (c : Char) : Option Nat → List Char → List Char → List String
  | _, acc, [] => [⟨acc.reverse⟩]
  | budget, acc, x :: xs =>
    if x = c then
      match budget with
      | none => (⟨acc.reverse⟩ : String) :: pySplitCharAux c none [] xs
      | some 0 => pySplitCharAux c (some 0) (x :: acc) xs
      | some (n + 1) => (⟨acc.reverse⟩ : String) :: pySplitCharAux c (some n) [] xs
    else
      pySplitCharAux c budget (x :: acc) xs

/-- Python `s.split(c)` / `s.split(c, maxsplit)` for a one-character
separator `c`.  Like Python, splitting the empty string yields `[""]`. -/
def pySplitChar (c : Char) (maxsplit : Option Nat) (s : String) : List String :=
  pySplitCharAux c maxsplit [] s.data

/-- Python `needle in hay` (substring test) on character lists. -/
def isSubstrL (n : List Char) : List Char → Bool
  | [] => n.isEmpty
  | x :: xs => n.isPrefixOf (x :: xs) || isSubstrL n xs

/-- Python `needle in hay` (substring test) on strings. -/
def isSubstr (n h : String) : Bool :=
  isSubstrL n.data h.data

/-- Python `s.startswith(pre)`. -/
def pyStartsWith (pre s : String) : Bool :=
  pre.data.isPrefixOf s.data

/-- Strip one trailing `'\n'` from a string, if present.  Used by the
renderer-content extraction: a docx text run that the source writes as
`f"...\n"` carries an explicit run-final newline that is pure layout. -/
def stripNL (s : String) : String :=
  if s.data.getLast? = some '\n' then ⟨s.data.dropLast⟩ else s

/-- The `TEMPLATES` dict of the source (lines 55-60), as an ordered
association list (Python dicts preserve insertion order). -/
def TEMPLATES : List (String × String) :=
  [("professional", "Professional template with a clean, minimalist design"),
   ("creative", "Creative template with modern styling and accents"),
   ("academic", "Academic template focused on publications and research"),
   ("technical", "Technical template highlighting skills and projects")]

/-- The FSM states of `class ResumeForm(StatesGroup)` (lines 63-72). -/
inductive ResumeForm
  | name
  | email
  | phone
  | education
  | experience
  | skills
  | projects
  | template
  | format
deriving DecidableEq, Repr

/-- The per-session FSM data dict (`state.update_data` / `state.get_data`):
one optional entry per key the handlers ever store.  `SessionData.empty`
models the dict right after `state.clear()` or at the start of a session. -/
structure SessionData where
  name : Option String
  email : Option String
  phone : Option String
  education : Option (List String)
  experience : Option (List String)
  skills : Option (List String)
  projects : Option (List String)
  template : Option String
  format : Option String
deriving DecidableEq, Repr

/-- The empty FSM data dict. -/
def SessionData.empty : SessionData :=
  ⟨none, none, none, none, none, none, none, none, none⟩

/-- A session as aiogram's `FSMContext` sees it: the current state of
`ResumeForm` (`none` after `state.clear()`) plus the data dict. -/
structure TgSession where
  step : Option ResumeForm
  data : SessionData
deriving DecidableEq, Repr

/-- The completed record handed to the renderers and derivation helpers:
`resume_data = await state.get_data()` plus the two derived entries the
format handler inserts (`summary`, `enhanced_skills`).  Education,
experience and projects hold the raw lines stored by their handlers. -/
structure ResumeData where
  name : String
  email : String
  phone : String
  education : List String
  experience : List String
  skills : List String
  projects : List String
  template : String
  format : String
  summary : String
  enhanced_skills : List String
deriving DecidableEq, Repr

/-- `process_skills` (lines 137-141): split the raw message on commas and
strip every segment (`[skill.strip() for skill in message.text.split(',')]`). -/
def process_skills (text : String) : List String :=
  (pySplitChar ',' none text).map pyStrip

/-- `process_education` (line 117): the handler stores the raw message
split on newlines (`message.text.split('\n')`). -/
def process_education (text : String) : List String :=
  pySplitChar '\n' none text

/-- `process_experience` (line 129): the handler stores the raw message
split on newlines. -/
def process_experience (text : String) : List String :=
  pySplitChar '\n' none text

/-- `process_projects` (lines 150-155): the sentinel check
`message.text.lower() == 'skip'` stores the empty list, otherwise the
raw message split on newlines. -/
def process_projects (text : String) : List String :=
  if pyLower text = "skip" then [] else pySplitChar '\n' none text

/-- `process_template` (lines 173-191): the handler is dispatched only
when the FSM state is `ResumeForm.template` and the callback data starts
with `"template:"` (the `@dp.callback_query` filter); it then stores
`callback_query.data.split(':')[1]` and moves the FSM to
`ResumeForm.format`.  Returns `none` when the handler is not invoked
(the state machine does not advance). -/
def process_template (st : Option ResumeForm) (cbdata : String) :
    Option (ResumeForm × String) :=
  match st with
  | some ResumeForm.template =>
    if pyStartsWith "template:" cbdata then
      some (ResumeForm.format, (pySplitChar ':' none cbdata).getD 1 "")
    else none
  | _ => none

/-- The dispatch gate of `process_format` (lines 194-199): invoked only
when the FSM state is `ResumeForm.format` and the callback data starts
with `"format:"`; yields the stored `format_type =
callback_query.data.split(':')[1]`.  `none` means the handler is not
invoked and the state machine does not advance. -/
def process_format_sel (st : Option ResumeForm) (cbdata : String) : Option String :=
  match st with
  | some ResumeForm.format =>
    if pyStartsWith "format:" cbdata then
      some ((pySplitChar ':' none cbdata).getD 1 "")
    else none
  | _ => none

/-- The template-selection keyboard of `process_projects` (lines 158-164):
one button per `TEMPLATES` key with callback data `f"template:{template_id}"`. -/
def template_keyboard_data : List String :=
  TEMPLATES.map (fun kv => "template:" ++ kv.1)

/-- The format-selection keyboard of `process_template` (lines 181-185). -/
def format_keyboard_data : List String :=
  ["format:pdf", "format:docx"]

/-- `generate_summary` (lines 255-259): the deterministic template
sentence over the name and the first three skills. -/
def generate_summary (resume_data : ResumeData) : String :=
  let skills := resume_data.skills.take 3
  resume_data.name ++ " is a dedicated professional with expertise in " ++
    String.intercalate ", " skills ++
    ". Seeking new opportunities to apply these skills in a challenging environment."

/-- The `common_skills` fallback list of `enhance_skills` (lines 264-265). -/
def common_skills : List String :=
  ["Problem Solving", "Communication", "Teamwork", "Time Management",
   "Leadership", "Critical Thinking", "Adaptability", "Project Management"]

/-- The `for skill in common_skills` loop of `enhance_skills`
(lines 271-273): append each fallback skill not already present while
fewer than 8 entries.  (The Python loop re-checks both conditions on
every iteration.) -/
def enhanceLoop : List String → List String → List String
  | enhanced, [] => enhanced
  | enhanced, s :: rest =>
    if s ∉ enhanced ∧ enhanced.length < 8 then enhanceLoop (enhanced ++ [s]) rest
    else enhanceLoop enhanced rest

/-- `enhance_skills` (lines 262-275): copy the input, and if it has fewer
than 8 entries run the fallback-append loop. -/
def enhance_skills (skills : List String) : List String :=
  if skills.length < 8 then enhanceLoop skills common_skills else skills

/-- The `skill_to_jobs` dict of `get_job_recommendations` (lines 280-290),
as an ordered association list. -/
def skill_to_jobs : List (String × List String) :=
  [("python", ["Python Developer", "Software Engineer", "Data Scientist", "Backend Developer"]),
   ("javascript", ["Frontend Developer", "Web Developer", "Full Stack Developer", "UI Engineer"]),
   ("java", ["Java Developer", "Software Engineer", "Android Developer", "Backend Developer"]),
   ("sql", ["Database Administrator", "Data Analyst", "Backend Developer", "SQL Developer"]),
   ("data analysis", ["Data Analyst", "Business Analyst", "Data Scientist", "Research Analyst"]),
   ("machine learning", ["Machine Learning Engineer", "Data Scientist", "AI Researcher", "ML Specialist"]),
   ("project management", ["Project Manager", "Product Manager", "Scrum Master", "Program Manager"]),
   ("marketing", ["Marketing Specialist", "Digital Marketer", "Content Strategist", "Marketing Manager"]),
   ("design", ["UI/UX Designer", "Graphic Designer", "Product Designer", "Web Designer"])]

/-- The `default_jobs` list of `get_job_recommendations` (lines 293-299). -/
def default_jobs : List String :=
  ["Project Manager", "Software Developer", "Business Analyst",
   "Data Specialist", "Marketing Coordinator"]

/-- The matching titles collected by the nested loops of
`get_job_recommendations` (lines 302-307), before deduplication: for each
skill (lowercased) and each dict key that is a substring of it, all the
associated job titles. -/
def matchedJobs (skills : List String) : List String :=
  skills.flatMap (fun skill =>
    skill_to_jobs.flatMap (fun kv =>
      if isSubstr kv.1 (pyLower skill) then kv.2 else []))

/-- `get_job_recommendations` (lines 278-314).  The source accumulates
matches into a Python `set` and returns `list(recommended_jobs)`, whose
order is unspecified; the model fixes first-occurrence order via
`List.dedup`, and every claim about the result is order-insensitive
(membership / emptiness only). -/
def get_job_recommendations (skills : List String) : List String :=
  let recommended := (matchedJobs skills).dedup
  if recommended.isEmpty then default_jobs else recommended

/-- The font pair (`title_font`, `body_font`) chosen by `generate_pdf_resume`
from the template id (lines 325-336). -/
def pdf_fonts (template : String) : String × String :=
  if template = "professional" then ("Helvetica", "Helvetica")
  else if template = "creative" then ("Helvetica", "Helvetica")
  else if template = "academic" then ("Times", "Times")
  else ("Courier", "Courier")

/-- One rendered document section: an optional section heading (the
header block at the top has none) and the text pieces emitted into the
section, in emission order.  For the PDF renderer a piece is the text of
one `cell`/`multi_cell`; for the DOCX renderer a piece is the text of one
run (or one `add_paragraph`/`add_heading` argument). -/
structure DocSection where
  heading : Option String
  lines : List String
deriving DecidableEq, Repr

/-- The per-entry experience block of `generate_pdf_resume` (lines 358-370):
`parts = exp.split(',', 3)`, entries with fewer than 3 parts are dropped,
and the emitted cells are the `"{position} - {company}"` title, the
duration, and the (possibly empty) description. -/
def pdf_exp_lines (exp : String) : List String :=
  let parts := pySplitChar ',' (some 3) exp
  if 3 ≤ parts.length then
    [pyStrip (parts.getD 0 "") ++ " - " ++ pyStrip (parts.getD 1 ""),
     pyStrip (parts.getD 2 ""),
     if 3 < parts.length then pyStrip (parts.getD 3 "") else ""]
  else []

/-- The per-entry education block of `generate_pdf_resume` (lines 377-387):
`parts = edu.split(',')`, entries with fewer than 2 parts are dropped,
and the emitted cells are the degree and `"{institution}, {year}"`. -/
def pdf_edu_lines (edu : String) : List String :=
  let parts := pySplitChar ',' none edu
  if 2 ≤ parts.length then
    [pyStrip (parts.getD 0 ""),
     pyStrip (parts.getD 1 "") ++ ", " ++
       (if 2 < parts.length then pyStrip (parts.getD 2 "") else "")]
  else []

/-- The per-entry project block of `generate_pdf_resume` (lines 404-414):
`parts = project.split(',', 1)` (the length-1 guard always holds). -/
def pdf_proj_lines (project : String) : List String :=
  let parts := pySplitChar ',' (some 1) project
  if 1 ≤ parts.length then
    [pyStrip (parts.getD 0 ""),
     if 1 < parts.length then pyStrip (parts.getD 1 "") else ""]
  else []

/-- The per-entry experience paragraph of `generate_docx_resume`
(lines 441-450): same parsing as the PDF side, but the first two runs
carry the f-string layout newline (`f"{position} - {company}\n"`,
`f"{duration}\n"`). -/
def docx_exp_lines (exp : String) : List String :=
  let parts := pySplitChar ',' (some 3) exp
  if 3 ≤ parts.length then
    [(pyStrip (parts.getD 0 "") ++ " - " ++ pyStrip (parts.getD 1 "")) ++ "\n",
     pyStrip (parts.getD 2 "") ++ "\n",
     if 3 < parts.length then pyStrip (parts.getD 3 "") else ""]
  else []

/-- The per-entry education paragraph of `generate_docx_resume`
(lines 455-463): same parsing as the PDF side, degree run carries the
layout newline (`f"{degree}\n"`). -/
def docx_edu_lines (edu : String) : List String :=
  let parts := pySplitChar ',' none edu
  if 2 ≤ parts.length then
    [pyStrip (parts.getD 0 "") ++ "\n",
     pyStrip (parts.getD 1 "") ++ ", " ++
       (if 2 < parts.length then pyStrip (parts.getD 2 "") else "")]
  else []

/-- The per-entry project paragraph of `generate_docx_resume`
(lines 474-482): name run carries the layout newline (`f"{name}\n"`). -/
def docx_proj_lines (project : String) : List String :=
  let parts := pySplitChar ',' (some 1) project
  if 1 ≤ parts.length then
    [pyStrip (parts.getD 0 "") ++ "\n",
     if 1 < parts.length then pyStrip (parts.getD 1 "") else ""]
  else []

/-- The text content of `generate_pdf_resume` (lines 317-418), section by
section in emission order.  Each section's `lines` are exactly the
strings the source passes to `pdf.cell` / `pdf.multi_cell`.  The
`PROJECTS` section exists only when `if data['projects']:` holds
(non-empty list). -/
def generate_pdf_sections (data : ResumeData) : List DocSection :=
  [⟨none, [data.name, "Email: " ++ data.email ++ " | Phone: " ++ data.phone]⟩,
   ⟨some "PROFESSIONAL SUMMARY", [data.summary]⟩,
   ⟨some "WORK EXPERIENCE", data.experience.flatMap pdf_exp_lines⟩,
   ⟨some "EDUCATION", data.education.flatMap pdf_edu_lines⟩,
   ⟨some "SKILLS", [String.intercalate ", " data.enhanced_skills]⟩] ++
  (if data.projects.isEmpty then []
   else [⟨some "PROJECTS", data.projects.flatMap pdf_proj_lines⟩])

/-- The text content of `generate_docx_resume` (lines 421-486), section by
section in emission order.  Each section's `lines` are exactly the
strings the source passes to `add_heading` / `add_paragraph` / `add_run`,
including the run-final `"\n"` layout newlines of the source's f-strings.
The `Projects` section exists only when `if data['projects']:` holds. -/
def generate_docx_sections (data : ResumeData) : List DocSection :=
  [⟨none, [data.name, "Email: " ++ data.email ++ " | Phone: " ++ data.phone]⟩,
   ⟨some "Professional Summary", [data.summary]⟩,
   ⟨some "Work Experience", data.experience.flatMap docx_exp_lines⟩,
   ⟨some "Education", data.education.flatMap docx_edu_lines⟩,
   ⟨some "Skills", [String.intercalate ", " data.enhanced_skills]⟩] ++
  (if data.projects.isEmpty then []
   else [⟨some "Projects", data.projects.flatMap docx_proj_lines⟩])

/-- Layout-erasing extraction on one section: case-fold the heading and
strip the run-final newline from each text piece.  Heading capitalisation
("WORK EXPERIENCE" vs "Work Experience") and run-final `"\n"` are the
layout mechanics by which the two renderers are allowed to differ. -/
def canonSection (s : DocSection) : DocSection :=
  ⟨s.heading.map pyUpper, s.lines.map stripNL⟩

/-- The education-line parser that both renderers inline (`edu.split(',')`,
minimum 2 fields, fields stripped, optional third field): `none` models
a dropped line. -/
def eduFromParts (parts : List String) : Option (String × String × String) :=
  if 2 ≤ parts.length then
    some (pyStrip (parts.getD 0 ""), pyStrip (parts.getD 1 ""),
          if 2 < parts.length then pyStrip (parts.getD 2 "") else "")
  else none

/-- The parsed education entries of a stored education line list, as both
renderers compute them. -/
def parsed_education (lines : List String) : List (String × String × String) :=
  lines.filterMap (fun l => eduFromParts (pySplitChar ',' none l))

/-- The render/derivation outcome of the `try:` block of `process_format`
(lines 209-239): either everything (summary, enhancement, rendering,
sending the document, job recommendations) succeeded, or some step raised
an exception whose `str(e)` is the carried message. -/
inductive RenderOutcome
  | ok
  | error (e : String)
deriving DecidableEq, Repr

/-- Literal message of line 203. -/
def processing_msg : String :=
  "⏳ Processing your resume... This may take a moment."

/-- Caption of line 227. -/
def resume_caption : String :=
  "🎉 Here\u0027s your resume!"

/-- The fixed prefix of the error reply of lines 243-245. -/
def errMarker : String :=
  "Sorry, there was an error generating your resume: "

/-- The error reply of lines 243-245:
`f"Sorry, there was an error generating your resume: {str(e)}\nPlease try again."`. -/
def errorReply (e : String) : String :=
  errMarker ++ e ++ "\nPlease try again."

/-- The job-recommendation message of lines 234-237: header plus a bullet
line per job in `jobs[:5]`. -/
def job_message (skills : List String) : String :=
  "💼 Based on your skills, here are some job recommendations:\n\n" ++
    String.join (((get_job_recommendations skills).take 5).map
      (fun job => "• " ++ job ++ "\n"))

/-- Closing prompt of lines 250-252. -/
def closing_msg : String :=
  "Type /build to create another resume or /start to see the welcome message again."

/-- `process_format` (lines 194-252) as a session transformer.  The
dispatch gate is `process_format_sel`; when it fires, the handler stores
the format, runs the whole `try:` block (abstracted by the
`RenderOutcome` argument: the block is attempted exactly once, never
retried), answers with the corresponding messages, and finally runs
`state.clear()` unconditionally — the `try/except` swallows every
exception, so the clear is reached on both outcomes.  Returns the
resulting session and the list of messages answered to the user. -/
def process_format_cb (sess : TgSession) (cbdata : String)
    (outcome : RenderOutcome) : TgSession × List String :=
  match process_format_sel sess.step cbdata with
  | none => (sess, [])
  | some fmt =>
    let store := { sess.data with format := some fmt }
    let msgs :=
      match outcome with
      | RenderOutcome.ok => [resume_caption, job_message (store.skills.getD [])]
      | RenderOutcome.error e => [errorReply e]
    (⟨none, SessionData.empty⟩, processing_msg :: msgs ++ [closing_msg])

/-- `cmd_build` (lines 83-86): `/build` sets the FSM state to
`ResumeForm.name` and leaves the data dict untouched. -/
def cmd_build (sess : TgSession) : TgSession :=
  ⟨some ResumeForm.name, sess.data⟩

/-- A heap of Python list objects, for the aliasing/frame model of
`enhance_skills`: cells of string lists addressed by allocation index. -/
abbrev ListStore := List (List String)

/-- Dereference a cell. -/
def readRef (st : ListStore) (r : Nat) : List String :=
  st.getD r []

/-- Mutate a cell in place. -/
def writeRef (st : ListStore) (r : Nat) (v : List String) : ListStore :=
  st.set r v

/-- The `for skill in common_skills` loop of `enhance_skills` on the
store model: `enhanced.append(skill)` mutates cell `r` in place. -/
def enhanceLoopSt : ListStore → Nat → List String → ListStore
  | st, _, [] => st
  | st, r, s :: rest =>
    let cur := readRef st r
    if s ∉ cur ∧ cur.length < 8 then enhanceLoopSt (writeRef st r (cur ++ [s])) r rest
    else enhanceLoopSt st r rest

/-- `enhance_skills` (lines 262-275) on the store model:
`enhanced = skills.copy()` allocates a fresh cell holding the same
contents as the caller's cell `skillsRef`, and the loop then writes only
through the fresh reference.  Returns the final store and the reference
to the enhanced list. -/
def enhance_skills_st (st : ListStore) (skillsRef : Nat) : ListStore × Nat :=
  (if (readRef (st ++ [readRef st skillsRef]) st.length).length < 8
   then enhanceLoopSt (st ++ [readRef st skillsRef]) st.length common_skills
   else st ++ [readRef st skillsRef],
   st.length)

/-!  ## Helper lemmas -/

theorem dropWhile_self_of_head {α : Type} (p : α → Bool) (l : List α)
    (h : ∀ c, l.head? = some c → p c = false) : l.dropWhile p = l := by
  cases l with
  | nil => rfl
  | cons a t => simp [List.dropWhile_cons, h a rfl]

theorem dropWhile_idem {α : Type} (p : α → Bool) (l : List α) :
    (l.dropWhile p).dropWhile p = l.dropWhile p := by
  apply dropWhile_self_of_head
  intro c hc
  have h := List.head?_dropWhile_not p l
  rw [hc] at h
  exact h

theorem getLast?_of_suffix {α : Type} {l₁ l₂ : List α} (h : l₂ <:+ l₁)
    (hne : l₂ ≠ []) : l₂.getLast? = l₁.getLast? := by
  obtain ⟨pre, rfl⟩ := h
  rw [List.getLast?_append_of_ne_nil _ hne]

theorem head?_dropTrailWs (l : List Char) (h : dropTrailWs l ≠ []) :
    (dropTrailWs l).head? = l.head? := by
  unfold dropTrailWs at h ⊢
  rw [List.head?_reverse]
  rw [getLast?_of_suffix (List.dropWhile_suffix isPyWs) (by simpa using h)]
  rw [List.getLast?_reverse]

theorem pyStripL_getLast_not_ws (l : List Char) (c : Char)
    (h : (pyStripL l).getLast? = some c) : isPyWs c = false := by
  unfold pyStripL dropTrailWs at h
  rw [List.getLast?_reverse] at h
  have h2 := List.head?_dropWhile_not isPyWs (l.dropWhile isPyWs).reverse
  rw [h] at h2
  exact h2

theorem dropTrailWs_idem (l : List Char) : dropTrailWs (dropTrailWs l) = dropTrailWs l := by
  unfold dropTrailWs
  rw [List.reverse_reverse, dropWhile_idem]

theorem pyStripL_idem (l : List Char) : pyStripL (pyStripL l) = pyStripL l := by
  unfold pyStripL
  rw [dropWhile_self_of_head isPyWs (dropTrailWs (l.dropWhile isPyWs))]
  · exact dropTrailWs_idem _
  · intro c hc
    by_cases hne : dropTrailWs (l.dropWhile isPyWs) = []
    · rw [hne] at hc; simp at hc
    · rw [head?_dropTrailWs _ hne] at hc
      have h2 := List.head?_dropWhile_not isPyWs l
      rw [hc] at h2
      exact h2

theorem pyStrip_idem (s : String) : pyStrip (pyStrip s) = pyStrip s := by
  show (⟨pyStripL (pyStripL s.data)⟩ : String) = ⟨pyStripL s.data⟩
  rw [pyStripL_idem]

theorem stripNL_append_nl (s : String) : stripNL (s ++ "\n") = s := by
  unfold stripNL
  have hd : (s ++ "\n").data = s.data ++ ['\n'] := by
    rw [String.data_append]
  rw [hd, List.getLast?_concat]
  simp

theorem stripNL_self (s : String) (h : s.data.getLast? ≠ some '\n') :
    stripNL s = s := by
  unfold stripNL
  rw [if_neg h]

theorem stripNL_pyStrip (s : String) : stripNL (pyStrip s) = pyStrip s := by
  apply stripNL_self
  intro h
  have h2 := pyStripL_getLast_not_ws s.data '\n' h
  simp [isPyWs] at h2

theorem stripNL_sep (a b : String) :
    stripNL (a ++ " - " ++ pyStrip b) = a ++ " - " ++ pyStrip b := by
  apply stripNL_self
  rw [String.data_append, String.data_append]
  rcases hb : (pyStrip b).data with _ | ⟨c, cs⟩
  · rw [List.append_nil,
      List.getLast?_append_of_ne_nil _ (by decide : (" - " : String).data ≠ [])]
    decide
  · rw [List.getLast?_append_of_ne_nil _ (by simp : (c :: cs : List Char) ≠ [])]
    rw [← hb]
    intro h
    have h2 := pyStripL_getLast_not_ws b.data '\n' h
    simp [isPyWs] at h2

theorem isSubstrL_sandwich (a n b : List Char) : isSubstrL n (a ++ n ++ b) = true := by
  induction a with
  | nil =>
    simp only [List.nil_append]
    cases hn : n ++ b with
    | nil =>
      have : n = [] := by
        rcases List.append_eq_nil.mp hn with ⟨h1, _⟩
        exact h1
      subst this
      simp [isSubstrL]
    | cons x xs =>
      rw [← hn]
      show isSubstrL n (n ++ b) = true
      rw [hn]
      unfold isSubstrL
      rw [← hn]
      have : n.isPrefixOf (n ++ b) = true := by
        rw [List.isPrefixOf_iff_prefix]
        exact List.prefix_append n b
      simp [this]
  | cons c a ih =>
    simp only [List.cons_append]
    unfold isSubstrL
    rw [List.append_assoc] at ih ⊢
    simp [ih]

theorem isSubstr_errorReply_marker (e : String) :
    isSubstr errMarker (errorReply e) = true := by
  show isSubstrL errMarker.data (errorReply e).data = true
  have : (errorReply e).data = [] ++ errMarker.data ++ (e.data ++ ("\nPlease try again." : String).data) := by
    show (errMarker ++ e ++ "\nPlease try again.").data = _
    rw [String.data_append, String.data_append]
    simp [List.append_assoc]
  rw [this]
  exact isSubstrL_sandwich [] errMarker.data _

theorem enhanceLoop_spec (fb : List String) : ∀ enh : List String, ∃ app,
    enhanceLoop enh fb = enh ++ app ∧ app.Sublist fb ∧ app.Nodup ∧
    ∀ a ∈ app, a ∉ enh := by
  induction fb with
  | nil =>
    intro enh
    exact ⟨[], by simp [enhanceLoop], List.Sublist.refl [], List.nodup_nil, by simp⟩
  | cons s rest ih =>
    intro enh
    by_cases hc : s ∉ enh ∧ enh.length < 8
    · obtain ⟨app, h1, h2, h3, h4⟩ := ih (enh ++ [s])
      refine ⟨s :: app, ?_, ?_, ?_, ?_⟩
      · rw [show enhanceLoop enh (s :: rest) = enhanceLoop (enh ++ [s]) rest from by
          simp [enhanceLoop, hc]]
        rw [h1]
        simp
      · exact List.Sublist.cons₂ s h2
      · refine List.nodup_cons.mpr ⟨?_, h3⟩
        intro hs
        exact (h4 s hs) (by simp)
      · intro a ha
        rcases List.mem_cons.mp ha with rfl | hm
        · exact hc.1
        · intro hmem
          exact (h4 a hm) (List.mem_append_left _ hmem)
    · obtain ⟨app, h1, h2, h3, h4⟩ := ih enh
      refine ⟨app, ?_, h2.cons s, h3, h4⟩
      rw [show enhanceLoop enh (s :: rest) = enhanceLoop enh rest from by
        simp [enhanceLoop, hc]]
      exact h1

theorem enhanceLoop_length (fb : List String) (hnd : fb.Nodup) :
    ∀ enh : List String, enh.length ≤ 8 →
    (enhanceLoop enh fb).length =
      min 8 (enh.length + (fb.filter (fun c => decide (c ∉ enh))).length) := by
  induction fb with
  | nil =>
    intro enh h8
    simp [enhanceLoop]
    omega
  | cons s rest ih =>
    intro enh h8
    have hnd2 := List.nodup_cons.mp hnd
    have ih2 := ih hnd2.2
    by_cases hmem : s ∈ enh
    · have hcond : ¬(s ∉ enh ∧ enh.length < 8) := fun h => h.1 hmem
      rw [show enhanceLoop enh (s :: rest) = enhanceLoop enh rest from by
        simp [enhanceLoop, hcond]]
      rw [ih2 enh h8]
      simp [List.filter_cons, hmem]
    · by_cases hlen : enh.length < 8
      · have hcond : s ∉ enh ∧ enh.length < 8 := ⟨hmem, hlen⟩
        rw [show enhanceLoop enh (s :: rest) = enhanceLoop (enh ++ [s]) rest from by
          simp [enhanceLoop, hcond]]
        rw [ih2 (enh ++ [s]) (by simp; omega)]
        have hfeq : rest.filter (fun c => decide (c ∉ enh ++ [s])) =
            rest.filter (fun c => decide (c ∉ enh)) := by
          apply List.filter_congr
          intro a ha
          have hne : a ≠ s := fun h => hnd2.1 (h ▸ ha)
          simp [List.mem_append, hne]
        rw [hfeq]
        have hfc : (s :: rest).filter (fun c => decide (c ∉ enh)) =
            s :: rest.filter (fun c => decide (c ∉ enh)) := by
          simp [List.filter_cons, hmem]
        rw [hfc]
        simp only [List.length_append, List.length_cons, List.length_nil]
        omega
      · have hcond : ¬(s ∉ enh ∧ enh.length < 8) := fun h => hlen h.2
        rw [show enhanceLoop enh (s :: rest) = enhanceLoop enh rest from by
          simp [enhanceLoop, hcond]]
        rw [ih2 enh h8]
        have h88 : enh.length = 8 := by omega
        rw [h88]
        omega

theorem enhanceLoopSt_frame (fb : List String) : ∀ (st : ListStore) (r r' : Nat),
    r' ≠ r → readRef (enhanceLoopSt st r fb) r' = readRef st r' := by
  induction fb with
  | nil => intro st r r' _; rfl
  | cons s rest ih =>
    intro st r r' h
    by_cases hc : s ∉ readRef st r ∧ (readRef st r).length < 8
    · rw [show enhanceLoopSt st r (s :: rest) =
          enhanceLoopSt (writeRef st r (readRef st r ++ [s])) r rest from by
        simp [enhanceLoopSt, hc]]
      rw [ih _ _ _ h]
      unfold readRef writeRef
      simp [List.getElem?_set_ne (fun hh => h hh.symm)]
    · rw [show enhanceLoopSt st r (s :: rest) = enhanceLoopSt st r rest from by
        simp [enhanceLoopSt, hc]]
      exact ih _ _ _ h

theorem enhanceLoopSt_read (fb : List String) : ∀ (st : ListStore) (r : Nat),
    r < st.length →
    readRef (enhanceLoopSt st r fb) r = enhanceLoop (readRef st r) fb := by
  induction fb with
  | nil => intro st r _; rfl
  | cons s rest ih =>
    intro st r h
    by_cases hc : s ∉ readRef st r ∧ (readRef st r).length < 8
    · rw [show enhanceLoopSt st r (s :: rest) =
          enhanceLoopSt (writeRef st r (readRef st r ++ [s])) r rest from by
        simp [enhanceLoopSt, hc]]
      rw [show enhanceLoop (readRef st r) (s :: rest) =
          enhanceLoop (readRef st r ++ [s]) rest from by
        simp [enhanceLoop, hc]]
      have hw : readRef (writeRef st r (readRef st r ++ [s])) r = readRef st r ++ [s] := by
        unfold readRef writeRef
        simp [List.getElem?_set_self h]
      rw [ih _ _ (by simpa [writeRef] using h), hw]
    · rw [show enhanceLoopSt st r (s :: rest) = enhanceLoopSt st r rest from by
        simp [enhanceLoopSt, hc]]
      rw [show enhanceLoop (readRef st r) (s :: rest) = enhanceLoop (readRef st r) rest from by
        simp [enhanceLoop, hc]]
      exact ih _ _ h

theorem isSubstr_errorReply_msg (e : String) :
    isSubstr e (errorReply e) = true := by
  show isSubstrL e.data (errorReply e).data = true
  have : (errorReply e).data = errMarker.data ++ e.data ++ ("\nPlease try again." : String).data := by
    show (errMarker ++ e ++ "\nPlease try again.").data = _
    rw [String.data_append, String.data_append]
  rw [this]
  exact isSubstrL_sandwich errMarker.data e.data _

/-!  ## Claims -/

/-- C1, counterexample: the Template selection handler advances on the
callback data `"template:hacker"`, storing the identifier `"hacker"`,
which is outside the closed template set — the dispatch filter checks
only the `"template:"` prefix, so an out-of-set identifier does advance
the state machine. -/
theorem c1_closed_set_counterexample :
    process_template (some ResumeForm.template) "template:hacker" =
      some (ResumeForm.format, "hacker") ∧
    "hacker" ∉ TEMPLATES.map Prod.fst := by
  decide

/-- C1, amended: the Template and Format handlers gate only on the FSM
state and the callback-data prefix (`"template:"` / `"format:"`), storing
the second colon-separated segment verbatim without a membership check;
every selection actually presented by the keyboards is drawn from the
closed sets {professional, creative, academic, technical} and
{pdf, docx}, so a session whose selections come from the presented
keyboards reaches rendering with `templateId` and `outputFormat` in the
closed enumerations, but any other identifier behind the right prefix
also advances the state machine. -/
theorem c1_selection_gating :
    (∀ cb ∈ template_keyboard_data, ∃ id, id ∈ TEMPLATES.map Prod.fst ∧
      process_template (some ResumeForm.template) cb = some (ResumeForm.format, id)) ∧
    (∀ st cb, process_template st cb ≠ none →
      st = some ResumeForm.template ∧ pyStartsWith "template:" cb = true) ∧
    (∀ cb ∈ format_keyboard_data, ∃ fmt, fmt ∈ ["pdf", "docx"] ∧
      process_format_sel (some ResumeForm.format) cb = some fmt) ∧
    (∀ st cb, process_format_sel st cb ≠ none →
      st = some ResumeForm.format ∧ pyStartsWith "format:" cb = true) := by
  refine ⟨?_, ?_, ?_, ?_⟩
  · intro cb hcb
    simp [template_keyboard_data, TEMPLATES] at hcb
    rcases hcb with rfl | rfl | rfl | rfl
    · exact ⟨"professional", by decide, by decide⟩
    · exact ⟨"creative", by decide, by decide⟩
    · exact ⟨"academic", by decide, by decide⟩
    · exact ⟨"technical", by decide, by decide⟩
  · intro st cb h
    rcases st with _ | s
    · exact absurd rfl h
    · cases s
      case template =>
        by_cases hc : pyStartsWith "template:" cb = true
        · exact ⟨rfl, hc⟩
        · exfalso
          apply h
          simp [process_template, hc]
      all_goals exact absurd rfl h
  · intro cb hcb
    simp [format_keyboard_data] at hcb
    rcases hcb with rfl | rfl
    · exact ⟨"pdf", by decide, by decide⟩
    · exact ⟨"docx", by decide, by decide⟩
  · intro st cb h
    rcases st with _ | s
    · exact absurd rfl h
    · cases s
      case format =>
        by_cases hc : pyStartsWith "format:" cb = true
        · exact ⟨rfl, hc⟩
        · exfalso
          apply h
          simp [process_format_sel, hc]
      all_goals exact absurd rfl h

/-- C1, witness: the keyboard selection `"template:professional"` does
advance the Template step. -/
theorem c1_selection_gating_witness :
    process_template (some ResumeForm.template) "template:professional" ≠ none := by
  obtain ⟨id, _, heq⟩ := c1_selection_gating.1 "template:professional" (by decide)
  rw [heq]
  simp

/-- C2, counterexample: on a 9-element skill list `enhance_skills`
appends nothing and returns all 9 entries, so the result length is
neither capped at 8 nor equal to `min 8 (|skills| + 0)`. -/
theorem c2_cap_counterexample :
    (enhance_skills ["s1", "s2", "s3", "s4", "s5", "s6", "s7", "s8", "s9"]).length = 9 ∧
    ¬ (enhance_skills ["s1", "s2", "s3", "s4", "s5", "s6", "s7", "s8", "s9"]).length ≤ 8 ∧
    (enhance_skills ["s1", "s2", "s3", "s4", "s5", "s6", "s7", "s8", "s9"]).length ≠
      min 8 (9 + 0) := by
  decide

/-- C2, amended: `enhance_skills skills = skills ++ appended` where
`appended` is a duplicate-free order-preserving subsequence of the fixed
8-element fallback list whose entries are not already present
(case-sensitive exact match), so the original skills are an
order-preserving prefix and `|enhanced| ≥ |skills|`; when
`|skills| ≤ 8` the result length is
`min 8 (|skills| + |fallback entries not already present|)`, but when
`|skills| > 8` the list is returned unchanged — its length exceeds 8,
so the cap applies only to the appending, never as truncation. -/
theorem c2_enhance_skills_spec (skills : List String) :
    ∃ appended,
      enhance_skills skills = skills ++ appended ∧
      appended.Sublist common_skills ∧
      appended.Nodup ∧
      (∀ a ∈ appended, a ∉ skills) ∧
      (8 ≤ skills.length → appended = []) ∧
      (skills.length ≤ 8 → (enhance_skills skills).length =
        min 8 (skills.length + (common_skills.filter (fun c => decide (c ∉ skills))).length)) ∧
      skills.length ≤ (enhance_skills skills).length := by
  by_cases h : skills.length < 8
  · obtain ⟨app, h1, h2, h3, h4⟩ := enhanceLoop_spec common_skills skills
    have he : enhance_skills skills = enhanceLoop skills common_skills := by
      simp [enhance_skills, h]
    refine ⟨app, he.trans h1, h2, h3, h4, ?_, ?_, ?_⟩
    · intro h8
      exact absurd h (by omega)
    · intro _
      rw [he]
      exact enhanceLoop_length common_skills (by decide) skills (by omega)
    · rw [he, h1]
      simp
  · have he : enhance_skills skills = skills := by simp [enhance_skills, h]
    refine ⟨[], by simp [he], List.nil_sublist _, List.nodup_nil, by simp,
            fun _ => rfl, ?_, by simp [he]⟩
    intro hle
    have h8 : skills.length = 8 := by omega
    rw [he, h8]
    omega

/-- C2, witness: for the singleton list `["Python"]` the enhanced length
equals the `min` formula (namely 8). -/
theorem c2_enhance_skills_spec_witness :
    (enhance_skills ["Python"]).length =
      min 8 ((["Python"] : List String).length +
        (common_skills.filter (fun c => decide (c ∉ (["Python"] : List String)))).length) := by
  obtain ⟨app, _, _, _, _, _, h6, _⟩ := c2_enhance_skills_spec ["Python"]
  exact h6 (by decide)

theorem exp_lines_canon (exp : String) :
    (pdf_exp_lines exp).map stripNL = (docx_exp_lines exp).map stripNL := by
  by_cases h : 3 ≤ (pySplitChar ',' (some 3) exp).length
  · simp [pdf_exp_lines, docx_exp_lines, h, stripNL_sep, stripNL_append_nl, stripNL_pyStrip]
  · simp [pdf_exp_lines, docx_exp_lines, h]

theorem edu_lines_canon (edu : String) :
    (pdf_edu_lines edu).map stripNL = (docx_edu_lines edu).map stripNL := by
  by_cases h : 2 ≤ (pySplitChar ',' none edu).length
  · simp [pdf_edu_lines, docx_edu_lines, h, stripNL_append_nl, stripNL_pyStrip]
  · simp [pdf_edu_lines, docx_edu_lines, h]

theorem proj_lines_canon (project : String) :
    (pdf_proj_lines project).map stripNL = (docx_proj_lines project).map stripNL := by
  by_cases h : 1 ≤ (pySplitChar ',' (some 1) project).length
  · simp [pdf_proj_lines, docx_proj_lines, h, stripNL_append_nl, stripNL_pyStrip]
  · simp [pdf_proj_lines, docx_proj_lines, h]

/-- C3: for every record, the PDF and DOCX renderers emit the same
sections in the same fixed order (header, Professional Summary, Work
Experience, Education, Skills, and the conditional Projects section), and
after erasing layout mechanics — heading capitalisation and the docx
run-final `"\n"` newlines — the extracted text content of every section
is identical between the two formats. -/
theorem c3_renderer_equivalence (d : ResumeData) :
    (generate_pdf_sections d).map DocSection.heading =
      [none, some "PROFESSIONAL SUMMARY", some "WORK EXPERIENCE",
       some "EDUCATION", some "SKILLS"] ++
      (if d.projects.isEmpty then [] else [some "PROJECTS"]) ∧
    (generate_docx_sections d).map DocSection.heading =
      [none, some "Professional Summary", some "Work Experience",
       some "Education", some "Skills"] ++
      (if d.projects.isEmpty then [] else [some "Projects"]) ∧
    (generate_pdf_sections d).map canonSection =
      (generate_docx_sections d).map canonSection := by
  have h1 : pyUpper "Professional Summary" = "PROFESSIONAL SUMMARY" := by decide
  have h2 : pyUpper "Work Experience" = "WORK EXPERIENCE" := by decide
  have h3 : pyUpper "Education" = "EDUCATION" := by decide
  have h4 : pyUpper "Skills" = "SKILLS" := by decide
  have h5 : pyUpper "Projects" = "PROJECTS" := by decide
  have h6 : pyUpper "PROFESSIONAL SUMMARY" = "PROFESSIONAL SUMMARY" := by decide
  have h7 : pyUpper "WORK EXPERIENCE" = "WORK EXPERIENCE" := by decide
  have h8 : pyUpper "EDUCATION" = "EDUCATION" := by decide
  have h9 : pyUpper "SKILLS" = "SKILLS" := by decide
  have h10 : pyUpper "PROJECTS" = "PROJECTS" := by decide
  refine ⟨?_, ?_, ?_⟩ <;>
    by_cases hp : d.projects.isEmpty <;>
      simp [generate_pdf_sections, generate_docx_sections, canonSection, hp,
            List.map_flatMap, exp_lines_canon, edu_lines_canon, proj_lines_canon,
            h1, h2, h3, h4, h5, h6, h7, h8, h9, h10]

/-- C4: once the Format handler's dispatch gate fires, the session is
unconditionally reset to the cleared state with an empty data dict,
whatever the render outcome; a following `/build` starts from an empty
record; and on a render failure exactly one answered message carries the
error marker — the reply that contains the failure description `str(e)`
as a substring.  The `try:` block is attempted exactly once per
selection, so a failure is never retried automatically. -/
theorem c4_unconditional_reset (sess : TgSession) (cb : String)
    (outcome : RenderOutcome) (fmt : String)
    (hgate : process_format_sel sess.step cb = some fmt) :
    (process_format_cb sess cb outcome).1 = ⟨none, SessionData.empty⟩ ∧
    (cmd_build (process_format_cb sess cb outcome).1).data = SessionData.empty ∧
    ∀ e, outcome = RenderOutcome.error e →
      ((process_format_cb sess cb outcome).2.countP
        (fun m => isSubstr errMarker m)) = 1 ∧
      errorReply e ∈ (process_format_cb sess cb outcome).2 ∧
      isSubstr e (errorReply e) = true := by
  unfold process_format_cb
  rw [hgate]
  refine ⟨rfl, rfl, ?_⟩
  intro e he
  subst he
  refine ⟨?_, by simp, isSubstr_errorReply_msg e⟩
  have h1 : isSubstr errMarker processing_msg = false := by decide
  have h2 : isSubstr errMarker closing_msg = false := by decide
  have h3 := isSubstr_errorReply_marker e
  simp [List.countP_cons, h1, h2, h3]

/-- C4, witness: a concrete failing render (`str(e) = "boom"`) on a
gated session resets the session and is reported exactly once. -/
theorem c4_unconditional_reset_witness :
    (process_format_cb ⟨some ResumeForm.format, SessionData.empty⟩ "format:pdf"
      (RenderOutcome.error "boom")).1 = ⟨none, SessionData.empty⟩ ∧
    ((process_format_cb ⟨some ResumeForm.format, SessionData.empty⟩ "format:pdf"
      (RenderOutcome.error "boom")).2.countP
        (fun m => isSubstr errMarker m)) = 1 := by
  have h := c4_unconditional_reset ⟨some ResumeForm.format, SessionData.empty⟩
    "format:pdf" (RenderOutcome.error "boom") "pdf" (by decide)
  exact ⟨h.1, (h.2.2 "boom" rfl).1⟩

/-- C5, counterexample: the skills parser keeps empty segments — on the
input `"Python,,SQL"` the stored sequence is `["Python", "", "SQL"]`,
which contains the empty string, contradicting the claim that empty
segments are dropped. -/
theorem c5_empty_segment_counterexample :
    process_skills "Python,,SQL" = ["Python", "", "SQL"] ∧
    "" ∈ process_skills "Python,,SQL" := by
  decide

/-- C5, amended: the skills parser splits the input on commas and trims
surrounding whitespace from every segment, keeping one (possibly empty)
entry per comma-separated segment — empty segments are NOT dropped, so
the stored sequence can contain empty strings. -/
theorem c5_skills_parsing (input : String) :
    process_skills input = (pySplitChar ',' none input).map pyStrip ∧
    (process_skills input).length = (pySplitChar ',' none input).length ∧
    ∀ s ∈ process_skills input, pyStrip s = s := by
  refine ⟨rfl, by simp [process_skills], ?_⟩
  intro s hs
  simp only [process_skills, List.mem_map] at hs
  obtain ⟨t, _, rfl⟩ := hs
  exact pyStrip_idem t

/-- C5, witness: the first stored skill of `"Python,,SQL"` is trimmed. -/
theorem c5_skills_parsing_witness : pyStrip "Python" = "Python" :=
  (c5_skills_parsing "Python,,SQL").2.2 "Python" (by decide)

/-- C6: the education parser used by both renderers depends only on the
first 3 comma-separated fields of a line (degree, institution, optional
year), trims every extracted field, silently drops any line with fewer
than 2 fields, and on the input
`"BS Computer Science, MIT, 2020\nBad Line"` produces exactly one parsed
entry; both renderers' education blocks are exactly the rendering of
these parsed entries. -/
theorem c6_education_parsing :
    (∀ parts : List String, eduFromParts parts = eduFromParts (parts.take 3)) ∧
    (∀ parts : List String, parts.length < 2 → eduFromParts parts = none) ∧
    (∀ parts dg inst yr, eduFromParts parts = some (dg, inst, yr) →
      pyStrip dg = dg ∧ pyStrip inst = inst ∧ pyStrip yr = yr) ∧
    (∀ l : String, pdf_edu_lines l =
      (match eduFromParts (pySplitChar ',' none l) with
       | none => []
       | some (dg, inst, yr) => [dg, inst ++ ", " ++ yr])) ∧
    (∀ l : String, docx_edu_lines l =
      (match eduFromParts (pySplitChar ',' none l) with
       | none => []
       | some (dg, inst, yr) => [dg ++ "\n", inst ++ ", " ++ yr])) ∧
    parsed_education (process_education "BS Computer Science, MIT, 2020\nBad Line") =
      [("BS Computer Science", "MIT", "2020")] := by
  refine ⟨?_, ?_, ?_, ?_, ?_, by decide⟩
  · intro parts
    rcases parts with _ | ⟨a, _ | ⟨b, _ | ⟨c, rest⟩⟩⟩ <;>
      simp [eduFromParts, List.getD_cons_zero, List.getD_cons_succ]
  · intro parts h
    unfold eduFromParts
    rw [if_neg (by omega)]
  · intro parts dg inst yr h
    unfold eduFromParts at h
    by_cases h2 : 2 ≤ parts.length
    · rw [if_pos h2] at h
      simp only [Option.some.injEq, Prod.mk.injEq] at h
      obtain ⟨hd, hi, hy⟩ := h
      refine ⟨hd ▸ pyStrip_idem _, hi ▸ pyStrip_idem _, ?_⟩
      rw [← hy]
      split
      · exact pyStrip_idem _
      · decide
    · rw [if_neg h2] at h
      exact absurd h (by simp)
  · intro l
    unfold pdf_edu_lines eduFromParts
    by_cases h : 2 ≤ (pySplitChar ',' none l).length
    · rw [if_pos h, if_pos h]
    · rw [if_neg h, if_neg h]
  · intro l
    unfold docx_edu_lines eduFromParts
    by_cases h : 2 ≤ (pySplitChar ',' none l).length
    · rw [if_pos h, if_pos h]
    · rw [if_neg h, if_neg h]

/-- C6, witness: the line `"Bad Line"` supplies a single field and is
dropped by the education parser. -/
theorem c6_education_parsing_witness : eduFromParts ["Bad Line"] = none :=
  c6_education_parsing.2.1 ["Bad Line"] (by decide)

/-- C7: `generate_summary` returns exactly the template sentence
`"<name> is a dedicated professional with expertise in <first up to 3
skills joined with comma-space>. Seeking new opportunities to apply
these skills in a challenging environment."`, using the first three
skills in listed order and joining only the available skills when fewer
than three exist. -/
theorem c7_summary_sentence (d : ResumeData) :
    (d.skills = [] → generate_summary d =
      d.name ++ " is a dedicated professional with expertise in . Seeking new opportunities to apply these skills in a challenging environment.") ∧
    (∀ a, d.skills = [a] → generate_summary d =
      d.name ++ " is a dedicated professional with expertise in " ++ a ++ ". Seeking new opportunities to apply these skills in a challenging environment.") ∧
    (∀ a b, d.skills = [a, b] → generate_summary d =
      d.name ++ " is a dedicated professional with expertise in " ++ a ++ ", " ++ b ++ ". Seeking new opportunities to apply these skills in a challenging environment.") ∧
    (∀ a b c rest, d.skills = a :: b :: c :: rest → generate_summary d =
      d.name ++ " is a dedicated professional with expertise in " ++ a ++ ", " ++ b ++ ", " ++ c ++ ". Seeking new opportunities to apply these skills in a challenging environment.") := by
  refine ⟨?_, ?_, ?_, ?_⟩
  · intro h
    simp [generate_summary, h, String.intercalate, String.append_assoc]
  · intro a h
    simp [generate_summary, h, String.intercalate, String.intercalate.go, String.append_assoc]
  · intro a b h
    simp [generate_summary, h, String.intercalate, String.intercalate.go, String.append_assoc]
  · intro a b c rest h
    simp [generate_summary, h, String.intercalate, String.intercalate.go, String.append_assoc]

/-- C7, witness: a concrete record with four skills uses exactly the
first three, in listed order. -/
theorem c7_summary_sentence_witness :
    generate_summary
      ⟨"Ada", "", "", [], [], ["Python", "SQL", "Go", "Rust"], [], "", "", "", []⟩ =
    "Ada is a dedicated professional with expertise in Python, SQL, Go. Seeking new opportunities to apply these skills in a challenging environment." := by
  have h := (c7_summary_sentence
    ⟨"Ada", "", "", [], [], ["Python", "SQL", "Go", "Rust"], [], "", "", "", []⟩).2.2.2
    "Python" "SQL" "Go" ["Rust"] rfl
  rw [h]
  decide

/-- C8: the Projects step input `"skip"` stores the empty projects
sequence, and for every record whose projects sequence is empty both
renderers omit the Projects section entirely — the emitted section
headings are exactly the five non-project sections. -/
theorem c8_skip_and_omit (d : ResumeData) (hp : d.projects = []) :
    process_projects "skip" = [] ∧
    (generate_pdf_sections d).map DocSection.heading =
      [none, some "PROFESSIONAL SUMMARY", some "WORK EXPERIENCE",
       some "EDUCATION", some "SKILLS"] ∧
    (generate_docx_sections d).map DocSection.heading =
      [none, some "Professional Summary", some "Work Experience",
       some "Education", some "Skills"] := by
  refine ⟨by decide, ?_, ?_⟩ <;>
    simp [generate_pdf_sections, generate_docx_sections, hp]

/-- C8, witness: a concrete record with empty projects renders without a
`PROJECTS` heading. -/
theorem c8_skip_and_omit_witness :
    process_projects "skip" = [] ∧
    (generate_pdf_sections
      ⟨"Ada", "a@b.c", "1", [], [], [], [], "professional", "pdf", "s", []⟩).map
        DocSection.heading =
      [none, some "PROFESSIONAL SUMMARY", some "WORK EXPERIENCE",
       some "EDUCATION", some "SKILLS"] := by
  have h := c8_skip_and_omit
    ⟨"Ada", "a@b.c", "1", [], [], [], [], "professional", "pdf", "s", []⟩ rfl
  exact ⟨h.1, h.2.1⟩

/-- C9: `get_job_recommendations` returns (as a set) exactly the union,
over every skill (case-folded) and every mapping keyword that is a
substring of that skill, of the associated job titles, and returns the
fixed default list of 5 titles exactly when that union is empty; in
particular for `["Python", "SQL"]` the result contains both
`"Python Developer"` and `"Database Administrator"`. -/
theorem c9_job_recommendations (skills : List String) :
    (matchedJobs skills = [] → get_job_recommendations skills = default_jobs) ∧
    (matchedJobs skills ≠ [] → ∀ t,
       t ∈ get_job_recommendations skills ↔ t ∈ matchedJobs skills) ∧
    (∀ t, t ∈ matchedJobs skills ↔
       ∃ s, s ∈ skills ∧ ∃ kv, kv ∈ skill_to_jobs ∧
         isSubstr kv.1 (pyLower s) = true ∧ t ∈ kv.2) ∧
    (get_job_recommendations skills = default_jobs ↔ matchedJobs skills = []) ∧
    "Python Developer" ∈ get_job_recommendations ["Python", "SQL"] ∧
    "Database Administrator" ∈ get_job_recommendations ["Python", "SQL"] := by
  refine ⟨?_, ?_, ?_, ?_, by decide, by decide⟩
  · intro h
    simp [get_job_recommendations, h]
  · intro h t
    have hne : ¬ (matchedJobs skills).dedup.isEmpty := by
      simp [List.isEmpty_iff, List.dedup_eq_nil, h]
    simp [get_job_recommendations, hne, List.mem_dedup]
  · intro t
    simp only [matchedJobs, List.mem_flatMap]
    constructor
    · rintro ⟨s, hs, kv, hkvm, hmem⟩
      by_cases hc : isSubstr kv.1 (pyLower s) = true
      · rw [if_pos hc] at hmem
        exact ⟨s, hs, kv, hkvm, hc, hmem⟩
      · rw [if_neg hc] at hmem
        simp at hmem
    · rintro ⟨s, hs, kv, hkvm, hc, hmem⟩
      exact ⟨s, hs, kv, hkvm, by rw [if_pos hc]; exact hmem⟩
  · constructor
    · intro hres
      by_contra hm
      have hne : ¬ (matchedJobs skills).dedup.isEmpty := by
        simp [List.isEmpty_iff, List.dedup_eq_nil, hm]
      have hget : get_job_recommendations skills = (matchedJobs skills).dedup := by
        simp [get_job_recommendations, hne]
      have hds : "Data Specialist" ∈ (matchedJobs skills).dedup := by
        rw [← hget, hres]
        decide
      rw [List.mem_dedup] at hds
      simp only [matchedJobs, List.mem_flatMap] at hds
      obtain ⟨s, _, kv, hkvmem, hmem⟩ := hds
      have hall : ∀ kv ∈ skill_to_jobs, "Data Specialist" ∉ kv.2 := by decide
      by_cases hc : isSubstr kv.1 (pyLower s) = true
      · rw [if_pos hc] at hmem
        exact hall kv hkvmem hmem
      · rw [if_neg hc] at hmem
        simp at hmem
    · intro h
      simp [get_job_recommendations, h]

/-- C9, witness: a skill list matching no keyword gets the default
recommendations. -/
theorem c9_job_recommendations_witness :
    get_job_recommendations ["zzz"] = default_jobs :=
  (c9_job_recommendations ["zzz"]).1 (by decide)

/-- C10: on the heap model of Python lists, `enhance_skills` never
mutates the caller's list: it copies the input into a fresh cell before
appending, so the caller's cell is unchanged and the fresh cell holds
exactly the value of the pure `enhance_skills` function. -/
theorem c10_no_caller_mutation (st : ListStore) (r : Nat) (h : r < st.length) :
    readRef (enhance_skills_st st r).1 r = readRef st r ∧
    readRef (enhance_skills_st st r).1 (enhance_skills_st st r).2 =
      enhance_skills (readRef st r) := by
  have hr1 : readRef (st ++ [readRef st r]) r = readRef st r := by
    unfold readRef
    simp [List.getElem?_append_left h]
  have hr2 : readRef (st ++ [readRef st r]) st.length = readRef st r := by
    unfold readRef
    simp [List.getElem?_concat_length]
  unfold enhance_skills_st
  constructor
  · by_cases hc : (readRef (st ++ [readRef st r]) st.length).length < 8
    · simp only [if_pos hc]
      rw [enhanceLoopSt_frame _ _ _ _ (by omega : r ≠ st.length), hr1]
    · simp only [if_neg hc]
      exact hr1
  · by_cases hc : (readRef (st ++ [readRef st r]) st.length).length < 8
    · simp only [if_pos hc]
      rw [enhanceLoopSt_read common_skills _ _
        (by simp : st.length < (st ++ [readRef st r]).length)]
      rw [hr2]
      rw [hr2] at hc
      simp [enhance_skills, hc]
    · simp only [if_neg hc]
      rw [hr2]
      rw [hr2] at hc
      simp [enhance_skills, hc]

/-- C10, witness: enhancing from a one-cell store leaves the caller's
cell holding `["Python"]` and the fresh cell holding the pure result. -/
theorem c10_no_caller_mutation_witness :
    readRef (enhance_skills_st [["Python"]] 0).1 0 = ["Python"] ∧
    readRef (enhance_skills_st [["Python"]] 0).1 (enhance_skills_st [["Python"]] 0).2 =
      enhance_skills ["Python"] := by
  have h := c10_no_caller_mutation [["Python"]] 0 (by decide)
  exact ⟨h.1.trans (by decide), h.2⟩
